import Mathlib

/-!
Verification development for the `kv` package: a directory-backed
persistent key-value store (`dirStore`) and a bounded in-memory LRU
cache (`lru`) that may wrap a backend store.

The embedding is byte-level and pure:
  * an item's serialized form is a `List Nat` of bytes (the `ByteItem`
    adapter copies bytes verbatim, so a stored value is just its bytes);
  * an absent item (Go `nil`) is `none`;
  * the filesystem under the store's root is a finite association list
    from escaped path segments to file contents;
  * the asynchronous completion channel returned by `Set`/`Flush` is
    linearized into a `Chan` value describing what a caller who waits
    on the channel observes.
-/

/-- Serialized item bytes (the `ByteItem` adapter reads/writes the raw
bytes, so serialization is the identity on this representation). -/
abbrev Val := List Nat

/-- Errors a write task can put on its completion channel. -/
inductive Err where
  /-- `os.Remove` on a path that does not exist. -/
  | noent
  /-- `os.OpenFile` on a path that is an existing directory. -/
  | isDir
  /-- `os.OpenFile` below a path component that is an existing file. -/
  | notDir
  deriving DecidableEq

/-- What a caller observes when reading from a returned channel. -/
inductive Chan where
  /-- The channel was closed before being returned, with no value sent:
  a reader completes at once with no error (`lru.Set`'s own channel). -/
  | closedNow
  /-- A task will send `some e` and/or close the channel: a reader
  blocks until the task completes and then observes `e?`. -/
  | completes (e? : Option Err)
  /-- The channel has no sender and is never closed: a reader blocks
  forever. -/
  | neverReady
  deriving DecidableEq

/-! ### Path escaping (model of `url.QueryEscape` / `url.QueryUnescape`
restricted to single-byte characters, which is exact for ASCII keys) -/

/-- Characters `url.QueryEscape` leaves unescaped: alphanumerics and
`-`, `_`, `.`, `~`. -/
def isUnreserved (c : Char) : Bool :=
  c.isAlphanum || c == '-' || c == '_' || c == '.' || c == '~'

/-- Uppercase hexadecimal digit for a value below 16. -/
def hexDigitChar (n : Nat) : Char :=
  if n < 10 then Char.ofNat (48 + n) else Char.ofNat (55 + n)

/-- Value of a hexadecimal digit character. -/
def hexVal (c : Char) : Option Nat :=
  if 48 ≤ c.toNat ∧ c.toNat ≤ 57 then some (c.toNat - 48)
  else if 65 ≤ c.toNat ∧ c.toNat ≤ 70 then some (c.toNat - 55)
  else if 97 ≤ c.toNat ∧ c.toNat ≤ 102 then some (c.toNat - 87)
  else none

/-- Escape one character the way `url.QueryEscape` does. -/
def escapeChar (c : Char) : List Char :=
  if isUnreserved c then [c]
  else if c == ' ' then ['+']
  else ['%', hexDigitChar (c.toNat / 16), hexDigitChar (c.toNat % 16)]

/-- Model of `url.QueryEscape` on a character list. -/
def queryEscapeChars (s : List Char) : List Char :=
  (s.map escapeChar).flatten

/-- Model of `url.QueryUnescape` on a character list; `none` on a
malformed escape (in which case `List` skips the entry). -/
def queryUnescapeChars : List Char → Option (List Char)
  | [] => some []
  | '%' :: a :: b :: rest =>
    match hexVal a, hexVal b with
    | some hi, some lo =>
      (queryUnescapeChars rest).map (fun r => Char.ofNat (hi * 16 + lo) :: r)
    | _, _ => none
  | '+' :: rest => (queryUnescapeChars rest).map (fun r => ' ' :: r)
  | c :: rest =>
    if c = '%' then none
    else (queryUnescapeChars rest).map (fun r => c :: r)

/-- Model of `strings.Split(s, "/")`. -/
def splitSegs : List Char → List (List Char)
  | [] => [[]]
  | c :: r =>
    if c = '/' then [] :: splitSegs r
    else
      match splitSegs r with
      | [] => [[c]]
      | h :: t => (c :: h) :: t

/-- Model of `strings.HasPrefix(s, pre)`. -/
def strStartsWith (pre s : String) : Bool :=
  pre.data.isPrefixOf s.data

/-- Join path segments back into a `/`-separated key, as produced by
unescaping a matched path and trimming the root (`dirStore.List`). -/
def joinSlash : List String → String
  | [] => ""
  | [s] => s
  | s :: rest => s ++ "/" ++ joinSlash rest

/-- Model of `mkpath` relative to the store root: split the key on `/`,
query-escape each segment, and join them as path components
(`filepath.Join` drops empty components). -/
def mkpath (key : String) : List String :=
  (((splitSegs key.data).map (fun seg => String.mk (queryEscapeChars seg))).filter
    (fun s => s ≠ ""))

/-! ### The directory store (`dirStore`)

The filesystem below the root is an association list from escaped path
segments to file contents. Directories exist implicitly: a path is a
directory when it is a proper prefix of some file's path. The mutex and
wait group serialize operations; the model is that linearization, with
each `Set`'s asynchronous task applied at the point its completion
channel is observed. -/

/-- Filesystem state below the store root: files only, keyed by escaped
path segments. -/
abbrev FS := List (List String × Val)

/-- Content of the regular file at `p`, if one exists. -/
def fsLookup (fs : FS) (p : List String) : Option Val :=
  (fs.find? (fun e => e.1 == p)).map (·.2)

/-- Remove the file at `p`. -/
def fsErase (fs : FS) (p : List String) : FS :=
  fs.filter (fun e => e.1 != p)

/-- Create or overwrite the file at `p` with content `v` (keeping the
original position so enumeration order is stable, like a directory). -/
def fsInsert (fs : FS) (p : List String) (v : Val) : FS :=
  if (fs.find? (fun e => e.1 == p)).isSome then
    fs.map (fun e => if e.1 == p then (p, v) else e)
  else fs ++ [(p, v)]

/-- `p` is an existing directory: a proper prefix of some file's path. -/
def pathIsDir (fs : FS) (p : List String) : Bool :=
  fs.any (fun e => decide (p.length < e.1.length) && (e.1.take p.length == p))

/-- Some proper prefix of `p` is an existing regular file, so `MkdirAll`
(whose error the code ignores) and then `OpenFile` fail. -/
def parentConflict (fs : FS) (p : List String) : Bool :=
  fs.any (fun e => decide (e.1.length < p.length) && (p.take e.1.length == e.1))

/-- Model of `dirStore.Get`: open the file at the escaped path and let
the item read it. A missing file, or a path that is a directory (whose
read fails), yields `nil`; a regular file yields its bytes. -/
def dirGet (fs : FS) (key : String) : Option Val :=
  fsLookup fs (mkpath key)

/-- Model of `dirStore.Set`, with the asynchronous write task applied
at the linearization point and the returned channel describing what a
waiting caller observes.

With an absent item the task runs `os.Remove`: an error is sent exactly
when no file exists at the path. With a present item the task runs
`MkdirAll` then `OpenFile(O_WRONLY|O_CREATE)` — note: no `O_TRUNC` —
and `WriteTo`, so the new content overlays the old content in place and
any old bytes past the new length survive. -/
def dirSet (fs : FS) (key : String) (item : Option Val) : FS × Chan :=
  let p := mkpath key
  match item with
  | none =>
    if (fsLookup fs p).isSome then (fsErase fs p, Chan.completes none)
    else (fs, Chan.completes (some Err.noent))
  | some v =>
    if pathIsDir fs p then (fs, Chan.completes (some Err.isDir))
    else if parentConflict fs p then (fs, Chan.completes (some Err.notDir))
    else (fsInsert fs p (v ++ ((fsLookup fs p).getD []).drop v.length),
          Chan.completes none)

/-- Model of `dirStore.Flush`: wait for outstanding write tasks, run
`syscall.Sync`, close the channel with no error sent. -/
def dirFlush (fs : FS) : FS × Chan :=
  (fs, Chan.completes none)

/-- Name of the direct child of directory `d` on the way to file path
`p`, when `p` lies strictly below `d`. -/
def childName (d p : List String) : Option String :=
  if d.length < p.length ∧ p.take d.length = d then p.get? d.length else none

/-- First-occurrence deduplication (a directory with several files
below it is still one glob match). -/
def dedupFirst : List String → List String
  | [] => []
  | s :: rest => s :: (dedupFirst rest).filter (fun t => t ≠ s)

/-- Model of `filepath.Glob` for the pattern `dir ++ "/" ++ base ++ "*"`:
the names of entries (files or implicit directories) directly inside
`dir` whose name starts with `base`. `*` does not cross `/`. -/
def globMatches (fs : FS) (d : List String) (base : String) : List String :=
  (dedupFirst ((fs.map Prod.fst).filterMap (childName d))).filter
    (strStartsWith base)

/-- Model of `dirStore.List`: build the glob pattern from the escaped
prefix (appending `"x"`, escaping, then dropping the final character),
glob, keep only regular files, unescape, and trim the root. -/
def dirList (fs : FS) (pre : String) : List String :=
  let p := if pre = "" then "/" else pre
  let esegs :=
    ((splitSegs (p.data ++ ['x'])).map
      (fun seg => String.mk (queryEscapeChars seg))).filter (fun s => s ≠ "")
  let d := esegs.dropLast
  let base := String.mk ((esegs.getLastD "").data.dropLast)
  (globMatches fs d base).filterMap (fun n =>
    if (fsLookup fs (d ++ [n])).isSome then
      ((d ++ [n]).mapM (fun seg => (queryUnescapeChars seg.data).map String.mk)).map
        joinSlash
    else none)

/-! ### The LRU cache (`lru`)

The Go cache keeps a `container/list` recency list (`l`, head =
most-recently-used) and a map `m` from key to list node; the code keeps
the two in lockstep (every map entry is one list node and vice versa),
so the embedding represents the pair as the recency-ordered list of
`(key, value)` nodes, with the map's entries being exactly that list's
keys and `len(store.m)` its length. A stored value can be the absent
item (`none`). The backend is abstract: any state type with get/set/
flush operations; `dirBackend` instantiates it with the directory
store. The mutex linearizes operations. A `none` result of `lruPut`,
`lruSet` or `lruGet` marks the run that dereferences the nil tail node
(a panic in Go). -/

/-- An abstract backend store over state type `β` (the cache only needs
these three operations; `dirBackend` is the directory-store instance). -/
structure Backend (β : Type) where
  get : β → String → Option Val
  set : β → String → Option Val → β × Chan
  flush : β → β × Chan

/-- The directory store as a cache backend. -/
def dirBackend : Backend FS :=
  ⟨dirGet, dirSet, dirFlush⟩

/-- Cache state: recency list `l` (head = most recently used; node =
`lruItem` with key `K` and value `V`), capacity `size`, optional
backend state. -/
structure lru (β : Type) where
  l : List (String × Option Val)
  size : Nat
  backend : Option β
  deriving DecidableEq

/-- Model of `NewLRU`: empty list, empty map, the given size and
backend — the size is stored without validation. -/
def NewLRU (β : Type) (size : Nat) (backend : Option β) : lru β :=
  ⟨[], size, backend⟩

/-- Combined `store.m[key]` lookup and node removal: the value of the
first node with key `k` together with the list without that node
(`MoveToFront` then re-adds it at the head). -/
def extract (k : String) : List (String × Option Val) →
    Option (Option Val × List (String × Option Val))
  | [] => none
  | (k', v) :: rest =>
    if k' = k then some (v, rest)
    else
      match extract k rest with
      | none => none
      | some (v', rest') => some (v', (k', v) :: rest')

/-- Model of `lru.put` (the insertion/eviction procedure; only called
on keys not in the map). Below capacity: push a fresh node at the
front. Otherwise take the tail node as victim — `none` models the nil
dereference when the list is empty — write it back to the backend if
one exists (returning that channel), delete it from the map, reuse its
node for the new entry and move it to the front. -/
def lruPut (B : Backend β) (s : lru β) (key : String) (item : Option Val) :
    Option (lru β × Option Chan) :=
  if s.l.length < s.size then
    some (⟨(key, item) :: s.l, s.size, s.backend⟩, none)
  else
    match s.l.getLast? with
    | none => none
    | some (vk, vv) =>
      match s.backend with
      | some b =>
        let r := B.set b vk vv
        some (⟨(key, item) :: s.l.dropLast, s.size, some r.1⟩, some r.2)
      | none =>
        some (⟨(key, item) :: s.l.dropLast, s.size, none⟩, none)

/-- Model of `lru.Get`: on a hit, move the node to the front and return
its stored value (which may itself be the absent item). On a miss with
a backend, delegate to the backend's get; on a backend hit, insert via
`lruPut` (waiting on — and discarding — its channel) and return the
item. Otherwise absent. -/
def lruGet (B : Backend β) (s : lru β) (key : String) :
    Option (Option Val × lru β) :=
  match extract key s.l with
  | some (v, rest) => some (v, ⟨(key, v) :: rest, s.size, s.backend⟩)
  | none =>
    match s.backend with
    | some b =>
      match B.get b key with
      | some v =>
        match lruPut B s key (some v) with
        | none => none
        | some (s', _) => some (some v, s')
      | none => some (none, s)
    | none => some (none, s)

/-- Model of `lru.Set`: a fresh closed channel is the default result.
On a present key, replace the node's value in place (even with an
absent item) and move it to the front. On an absent key with a present
item, run `lruPut`; if it produced a backend write-back channel, return
that channel to the caller. Otherwise return the closed channel. -/
def lruSet (B : Backend β) (s : lru β) (key : String) (item : Option Val) :
    Option (lru β × Chan) :=
  match extract key s.l with
  | some (_, rest) => some (⟨(key, item) :: rest, s.size, s.backend⟩, Chan.closedNow)
  | none =>
    if item.isSome then
      match lruPut B s key item with
      | none => none
      | some (s', some c) => some (s', c)
      | some (s', none) => some (s', Chan.closedNow)
    else some (s, Chan.closedNow)

/-- Model of `lru.List`: the map's keys (= the list's keys) that start
with the prefix. -/
def lruList (s : lru β) (pre : String) : List String :=
  (s.l.map Prod.fst).filter (strStartsWith pre)

/-- What the flush goroutine's `<-store.backend.Flush()` receive turns
into on the cache's own channel: a sent error is forwarded, a close
without a value sends nothing, a never-ready backend channel blocks the
goroutine so the cache's channel is never closed either. -/
def propagateFlush : Chan → Chan
  | Chan.completes (some e) => Chan.completes (some e)
  | Chan.completes none => Chan.completes none
  | Chan.closedNow => Chan.completes none
  | Chan.neverReady => Chan.neverReady

/-- Model of `lru.Flush`. Without a backend the returned channel has no
sender and is never closed. With a backend, the goroutine issues a
backend set for every cached entry (their channels are discarded), then
delegates to the backend's flush and forwards its outcome. The map
iteration order is unspecified in Go; the model folds in recency
order. -/
def lruFlush (B : Backend β) (s : lru β) : lru β × Chan :=
  match s.backend with
  | none => (s, Chan.neverReady)
  | some b =>
    let b1 := s.l.foldl (fun a kv => (B.set a kv.1 kv.2).1) b
    let r := B.flush b1
    (⟨s.l, s.size, some r.1⟩, propagateFlush r.2)

/-! ### Operation sequences over a cache -/

/-- One client call against the cache. -/
inductive Op where
  | get (k : String)
  | set (k : String) (item : Option Val)
  | list (pre : String)
  | flush
  deriving DecidableEq

/-- State reached after one operation (`none` = the nil-tail panic). -/
def step (B : Backend β) (s : lru β) : Op → Option (lru β)
  | Op.get k => (lruGet B s k).map (·.2)
  | Op.set k item => (lruSet B s k item).map (·.1)
  | Op.list _ => some s
  | Op.flush => some (lruFlush B s).1

/-- State reached after a sequence of operations. -/
def run (B : Backend β) (s : lru β) : List Op → Option (lru β)
  | [] => some s
  | op :: rest => (step B s op).bind (fun s' => run B s' rest)

/-! ### Claim theorems -/

/-- Claim C1 (code bug): the round-trip law fails on the persistent
store when the key already held a longer value, because the write opens
the file without truncation. Setting `k` to the five bytes
`[1,2,3,4,5]`, observing completion, then setting `k` to the two bytes
`[9,8]` and observing completion, a get returns `[9,8,3,4,5]` — the new
bytes overlaid on the stale tail of the old value — which is not
byte-equal to `[9,8]`. -/
theorem dirStore_set_no_truncate :
    (dirSet [] "k" (some [1, 2, 3, 4, 5])).2 = Chan.completes none ∧
    (dirSet (dirSet [] "k" (some [1, 2, 3, 4, 5])).1 "k" (some [9, 8])).2 =
      Chan.completes none ∧
    dirGet (dirSet (dirSet [] "k" (some [1, 2, 3, 4, 5])).1 "k" (some [9, 8])).1 "k" =
      some [9, 8, 3, 4, 5] ∧
    ([9, 8, 3, 4, 5] : Val) ≠ [9, 8] := by
  refine ⟨by decide, by decide, by decide, by decide⟩

/-- Claim C2 counterexample: a `set` that triggers an eviction whose
write-back fails hands the backend's failing completion channel to its
own caller. Capacity-1 cache over an empty directory store: set `"a"`,
then set `"a"` to the absent item (the entry stays with a null value),
then set `"b"` — the eviction writes the victim `("a", nil)` back as a
delete of a key the backend never stored, and the caller of this third
`set` receives a channel carrying that error, contradicting the claim
that such errors are not delivered to the caller. -/
theorem lru_set_returns_writeback_chan_cex :
    lruSet dirBackend (NewLRU FS 1 (some [])) "a" (some [1]) =
      some (⟨[("a", some [1])], 1, some []⟩, Chan.closedNow) ∧
    lruSet dirBackend (⟨[("a", some [1])], 1, some []⟩ : lru FS) "a" none =
      some (⟨[("a", none)], 1, some []⟩, Chan.closedNow) ∧
    lruSet dirBackend (⟨[("a", none)], 1, some []⟩ : lru FS) "b" (some [2]) =
      some (⟨[("b", some [2])], 1, some []⟩, Chan.completes (some Err.noent)) := by
  refine ⟨by decide, by decide, by decide⟩

/-- Claim C2 as amended: a `get`-triggered eviction write-back is
fire-and-forget for the caller (the channel is received and its error
discarded inside `get`), but a `set`-triggered eviction returns the
backend's own write-back completion channel to the `set` caller, so a
write-back failure is delivered on the completion signal of that very
`set`. -/
theorem lru_set_returns_writeback_chan (β : Type) (B : Backend β) (s : lru β)
    (b : β) (k : String) (v : Val) (vk : String) (vv : Option Val)
    (hb : s.backend = some b)
    (hmiss : extract k s.l = none)
    (hfull : ¬ s.l.length < s.size)
    (hlast : s.l.getLast? = some (vk, vv)) :
    lruSet B s k (some v) =
      some (⟨(k, some v) :: s.l.dropLast, s.size, some (B.set b vk vv).1⟩,
        (B.set b vk vv).2) ∧
    (∀ w : Val, B.get b k = some w →
      lruGet B s k =
        some (some w,
          ⟨(k, some w) :: s.l.dropLast, s.size, some (B.set b vk vv).1⟩)) := by
  constructor
  · simp [lruSet, lruPut, hmiss, hfull, hlast, hb]
  · intro w hw
    simp [lruGet, lruPut, hmiss, hfull, hlast, hb, hw]

/-- Witness for the amended C2 theorem at the counterexample's state. -/
theorem lru_set_returns_writeback_chan_witness :
    ((⟨[("a", none)], 1, some []⟩ : lru FS).backend = some []) ∧
    (extract "b" (⟨[("a", none)], 1, some []⟩ : lru FS).l = none) ∧
    (¬ (⟨[("a", none)], 1, some []⟩ : lru FS).l.length <
        (⟨[("a", none)], 1, some []⟩ : lru FS).size) ∧
    ((⟨[("a", none)], 1, some []⟩ : lru FS).l.getLast? = some ("a", none)) ∧
    (lruSet dirBackend (⟨[("a", none)], 1, some []⟩ : lru FS) "b" (some [2]) =
      some (⟨("b", some [2]) :: (⟨[("a", none)], 1, some []⟩ : lru FS).l.dropLast, 1,
        some (dirBackend.set [] "a" none).1⟩, (dirBackend.set [] "a" none).2) ∧
    (∀ w : Val, dirBackend.get [] "b" = some w →
      lruGet dirBackend (⟨[("a", none)], 1, some []⟩ : lru FS) "b" =
        some (some w,
          ⟨("b", some w) :: (⟨[("a", none)], 1, some []⟩ : lru FS).l.dropLast, 1,
            some (dirBackend.set [] "a" none).1⟩))) :=
  ⟨by decide, by decide, by decide, by decide,
    lru_set_returns_writeback_chan FS dirBackend ⟨[("a", none)], 1, some []⟩ []
      "b" [2] "a" none (by decide) (by decide) (by decide) (by decide)⟩

/-- Claim C3 (code bug): for every cache without a backend, `Flush`
returns a channel with no sender that is never closed — a caller
waiting on it blocks forever — and leaves the cache unchanged. The
claim (and the spec) say the signal is already satisfied; the code
never closes the channel because the closing goroutine is only spawned
when a backend exists. -/
theorem lru_flush_no_backend_never_ready (β : Type) (B : Backend β) (s : lru β)
    (h : s.backend = none) : lruFlush B s = (s, Chan.neverReady) := by
  simp [lruFlush, h]

/-- Witness: flushing a fresh backendless capacity-2 cache. -/
theorem lru_flush_no_backend_never_ready_witness :
    (NewLRU FS 2 none).backend = none ∧
    lruFlush dirBackend (NewLRU FS 2 none) = (NewLRU FS 2 none, Chan.neverReady) :=
  ⟨by decide, lru_flush_no_backend_never_ready FS dirBackend (NewLRU FS 2 none) (by decide)⟩

/-- Claim C4 (code bug): listing is exact for top-level keys — with
`"foo"`, `"bar"`, `"baz"` stored, `List "ba"` returns exactly
`bar`/`baz` and `List ""` returns all three — but a hierarchical key is
invisible: after storing key `"a/b"` (completed without error, and
readable back), `List ""` and `List "a"` both return the empty list,
because the glob pattern does not descend into subdirectories and the
directory `a` it does match is skipped as a non-regular file. -/
theorem dirStore_list_misses_nested_keys :
    dirList (dirSet (dirSet (dirSet [] "foo" (some [1])).1 "bar"
        (some [2])).1 "baz" (some [3])).1 "ba" = ["bar", "baz"] ∧
    dirList (dirSet (dirSet (dirSet [] "foo" (some [1])).1 "bar"
        (some [2])).1 "baz" (some [3])).1 "" = ["foo", "bar", "baz"] ∧
    (dirSet [] "a/b" (some [7])).2 = Chan.completes none ∧
    dirGet (dirSet [] "a/b" (some [7])).1 "a/b" = some [7] ∧
    dirList (dirSet [] "a/b" (some [7])).1 "" = [] ∧
    dirList (dirSet [] "a/b" (some [7])).1 "a" = [] := by
  refine ⟨by decide, by decide, by decide, by decide, by decide, by decide⟩

/-- Claim C6: setting an absent item on a cache-resident key keeps the
entry in the index with a null value: the `set` replaces the node's
value in place and moves it to the front, the key still shows up in
every `List` whose prefix matches it, and a subsequent `get` returns
absent precisely because the stored value is null (without consulting
any backend). -/
theorem lru_absent_set_retains_entry (β : Type) (B : Backend β) (s : lru β)
    (k : String) (v : Option Val) (rest : List (String × Option Val))
    (h : extract k s.l = some (v, rest)) :
    lruSet B s k none = some (⟨(k, none) :: rest, s.size, s.backend⟩, Chan.closedNow) ∧
    (∀ p : String, strStartsWith p k = true →
      k ∈ lruList ⟨(k, none) :: rest, s.size, s.backend⟩ p) ∧
    (lruGet B ⟨(k, none) :: rest, s.size, s.backend⟩ k).map Prod.fst = some none := by
  refine ⟨by simp [lruSet, h], ?_, by simp [lruGet, extract]⟩
  intro p hp
  simp only [lruList, List.map_cons, List.filter_cons, hp, if_pos]
  exact List.mem_cons_self _ _

/-- Witness for C6 on a capacity-1 cache holding `"a"`. -/
theorem lru_absent_set_retains_entry_witness :
    (extract "a" (⟨[("a", some [1])], 1, none⟩ : lru FS).l = some (some [1], [])) ∧
    (lruSet dirBackend (⟨[("a", some [1])], 1, none⟩ : lru FS) "a" none =
      some (⟨[("a", none)], 1, none⟩, Chan.closedNow) ∧
    (∀ p : String, strStartsWith p "a" = true →
      "a" ∈ lruList (⟨[("a", none)], 1, none⟩ : lru FS) p) ∧
    (lruGet dirBackend (⟨[("a", none)], 1, none⟩ : lru FS) "a").map Prod.fst =
      some none) :=
  ⟨by decide,
    lru_absent_set_retains_entry FS dirBackend ⟨[("a", some [1])], 1, none⟩
      "a" (some [1]) [] (by decide)⟩

/-- Claim C7: capacity-2 cache, no backend; after setting `"foo"`,
`"bar"`, `"baz"` in that order, the least-recently-used key `"foo"` is
the one evicted: a get of `"foo"` returns absent (leaving the cache
unchanged), and gets of `"bar"` and then `"baz"` return the values that
were set. -/
theorem lru_eviction_order :
    run dirBackend (NewLRU FS 2 none)
      [Op.set "foo" (some [1]), Op.set "bar" (some [2]), Op.set "baz" (some [3])] =
      some ⟨[("baz", some [3]), ("bar", some [2])], 2, none⟩ ∧
    lruGet dirBackend (⟨[("baz", some [3]), ("bar", some [2])], 2, none⟩ : lru FS)
      "foo" = some (none, ⟨[("baz", some [3]), ("bar", some [2])], 2, none⟩) ∧
    lruGet dirBackend (⟨[("baz", some [3]), ("bar", some [2])], 2, none⟩ : lru FS)
      "bar" = some (some [2], ⟨[("bar", some [2]), ("baz", some [3])], 2, none⟩) ∧
    lruGet dirBackend (⟨[("bar", some [2]), ("baz", some [3])], 2, none⟩ : lru FS)
      "baz" = some (some [3], ⟨[("baz", some [3]), ("bar", some [2])], 2, none⟩) := by
  refine ⟨by decide, by decide, by decide, by decide⟩

/-- Claim C8: on the persistent store, deleting a key that was never
set (no file exists at its path) sends a non-nil error on the returned
completion channel, leaves the filesystem unchanged, and a subsequent
get of the key returns absent. -/
theorem dirStore_delete_missing_key_errors (fs : FS) (key : String)
    (h : fsLookup fs (mkpath key) = none) :
    dirSet fs key none = (fs, Chan.completes (some Err.noent)) ∧
    dirGet (dirSet fs key none).1 key = none := by
  constructor
  · simp [dirSet, h]
  · simp [dirSet, dirGet, h]

/-- Witness for C8: deleting `"q"` from an empty store. -/
theorem dirStore_delete_missing_key_errors_witness :
    (fsLookup [] (mkpath "q") = none) ∧
    (dirSet [] "q" none = ([], Chan.completes (some Err.noent)) ∧
      dirGet (dirSet [] "q" none).1 "q" = none) :=
  ⟨by decide, dirStore_delete_missing_key_errors [] "q" (by decide)⟩

/-- Claim C9: flushing a cache that has a backend only issues backend
writes — the cache's own recency list (its set of keys, each stored
item, and their order) and its capacity are exactly what they were when
the flush took the lock. -/
theorem lru_flush_preserves_cache (β : Type) (B : Backend β) (s : lru β) (b : β)
    (hb : s.backend = some b) :
    (lruFlush B s).1.l = s.l ∧ (lruFlush B s).1.size = s.size := by
  simp [lruFlush, hb]

/-- Witness for C9 on a two-entry cache over an empty directory store. -/
theorem lru_flush_preserves_cache_witness :
    ((⟨[("a", some [1]), ("b", none)], 2, some []⟩ : lru FS).backend = some []) ∧
    ((lruFlush dirBackend (⟨[("a", some [1]), ("b", none)], 2, some []⟩ : lru FS)).1.l =
        (⟨[("a", some [1]), ("b", none)], 2, some []⟩ : lru FS).l ∧
      (lruFlush dirBackend (⟨[("a", some [1]), ("b", none)], 2, some []⟩ : lru FS)).1.size =
        (⟨[("a", some [1]), ("b", none)], 2, some []⟩ : lru FS).size) :=
  ⟨by decide,
    lru_flush_preserves_cache FS dirBackend ⟨[("a", some [1]), ("b", none)], 2, some []⟩
      [] (by decide)⟩

/-! ### Capacity invariant machinery (claims C5 and C10) -/

/-- Removing a node found by key lookup shortens the list by one. -/
theorem extract_length (k : String) (l : List (String × Option Val))
    (v : Option Val) (rest : List (String × Option Val))
    (h : extract k l = some (v, rest)) : l.length = rest.length + 1 := by
  induction l generalizing v rest with
  | nil => simp [extract] at h
  | cons hd t ih =>
    obtain ⟨k', v'⟩ := hd
    simp only [extract] at h
    split at h
    · cases h
      simp
    · cases he : extract k t with
      | none => rw [he] at h; cases h
      | some p =>
        obtain ⟨w, rest''⟩ := p
        rw [he] at h
        cases h
        have := ih _ _ he
        simp only [List.length_cons]
        omega

/-- The insertion/eviction procedure never grows the list past the
capacity, and never touches the capacity. -/
theorem lruPut_inv (β : Type) (B : Backend β) (s : lru β) (k : String)
    (item : Option Val) (s' : lru β) (c : Option Chan)
    (hlen : s.l.length ≤ s.size)
    (h : lruPut B s k item = some (s', c)) :
    s'.l.length ≤ s'.size ∧ s'.size = s.size := by
  unfold lruPut at h
  split at h
  · next hlt =>
    cases h
    refine ⟨?_, rfl⟩
    simpa using hlt
  · next hlt =>
    cases hl : s.l.getLast? with
    | none => rw [hl] at h; cases h
    | some p =>
      obtain ⟨vk, vv⟩ := p
      rw [hl] at h
      have hne : s.l ≠ [] := by
        intro he
        rw [he] at hl
        cases hl
      have hpos : 0 < s.l.length := List.length_pos.mpr hne
      cases hb : s.backend with
      | none =>
        rw [hb] at h
        cases h
        refine ⟨?_, rfl⟩
        simp [List.length_dropLast]
        omega
      | some b =>
        rw [hb] at h
        cases h
        refine ⟨?_, rfl⟩
        simp [List.length_dropLast]
        omega

/-- `lru.Set` preserves the capacity bound. -/
theorem lruSet_inv (β : Type) (B : Backend β) (s : lru β) (k : String)
    (item : Option Val) (s' : lru β) (c : Chan)
    (hlen : s.l.length ≤ s.size)
    (h : lruSet B s k item = some (s', c)) :
    s'.l.length ≤ s'.size ∧ s'.size = s.size := by
  unfold lruSet at h
  split at h
  · next v rest heq =>
    cases h
    refine ⟨?_, rfl⟩
    have := extract_length k s.l v rest heq
    simp only [List.length_cons]
    omega
  · split at h
    · split at h
      · cases h
      · cases h
        exact lruPut_inv β B s k item _ _ hlen (by assumption)
      · cases h
        exact lruPut_inv β B s k item _ _ hlen (by assumption)
    · cases h
      exact ⟨hlen, rfl⟩

/-- `lru.Get` preserves the capacity bound. -/
theorem lruGet_inv (β : Type) (B : Backend β) (s : lru β) (k : String)
    (v : Option Val) (s' : lru β)
    (hlen : s.l.length ≤ s.size)
    (h : lruGet B s k = some (v, s')) :
    s'.l.length ≤ s'.size ∧ s'.size = s.size := by
  unfold lruGet at h
  split at h
  · cases h
    refine ⟨?_, rfl⟩
    have := extract_length k s.l _ _ (by assumption)
    simp only [List.length_cons]
    omega
  · split at h
    · split at h
      · split at h
        · cases h
        · cases h
          exact lruPut_inv β B s k _ _ _ hlen (by assumption)
      · cases h
        exact ⟨hlen, rfl⟩
    · cases h
      exact ⟨hlen, rfl⟩

/-- One client operation preserves the capacity bound (and capacity). -/
theorem step_inv (β : Type) (B : Backend β) (s s' : lru β) (op : Op)
    (hlen : s.l.length ≤ s.size) (h : step B s op = some s') :
    s'.l.length ≤ s'.size ∧ s'.size = s.size := by
  cases op with
  | get k =>
    simp only [step] at h
    cases hg : lruGet B s k with
    | none => rw [hg] at h; cases h
    | some p =>
      obtain ⟨v, s''⟩ := p
      rw [hg] at h
      cases h
      exact lruGet_inv β B s k v s'' hlen hg
  | set k item =>
    simp only [step] at h
    cases hs : lruSet B s k item with
    | none => rw [hs] at h; cases h
    | some p =>
      obtain ⟨s'', c⟩ := p
      rw [hs] at h
      cases h
      exact lruSet_inv β B s k item s'' c hlen hs
  | list p =>
    cases h
    exact ⟨hlen, rfl⟩
  | flush =>
    simp only [step, lruFlush] at h
    cases hb : s.backend with
    | none => rw [hb] at h; cases h; exact ⟨hlen, rfl⟩
    | some b => rw [hb] at h; cases h; exact ⟨hlen, rfl⟩

/-- A whole run preserves the capacity bound (and capacity). -/
theorem run_inv (β : Type) (B : Backend β) (ops : List Op) (s s' : lru β)
    (hlen : s.l.length ≤ s.size) (h : run B s ops = some s') :
    s'.l.length ≤ s'.size ∧ s'.size = s.size := by
  induction ops generalizing s with
  | nil =>
    cases h
    exact ⟨hlen, rfl⟩
  | cons op rest ih =>
    simp only [run] at h
    cases hs : step B s op with
    | none => rw [hs] at h; cases h
    | some s₁ =>
      rw [hs] at h
      have h₁ := step_inv β B s s₁ op hlen hs
      have h₂ := ih s₁ h₁.1 h
      exact ⟨h₂.1, h₂.2.trans h₁.2⟩

/-- Claim C5: starting from the empty cache with capacity `N ≥ 1`,
after any finite sequence of get/set/list/flush operations that runs to
completion, the number of map entries (which the code keeps equal to
the recency list's node count) never exceeds `N`; since every state
along the sequence is itself reached by a prefix of the sequence, the
bound holds at every point. -/
theorem lru_capacity_invariant (β : Type) (B : Backend β) (N : Nat)
    (b : Option β) (ops : List Op) (s' : lru β) (_hN : 1 ≤ N)
    (h : run B (NewLRU β N b) ops = some s') :
    s'.l.length ≤ N := by
  have h0 : (NewLRU β N b).l.length ≤ (NewLRU β N b).size := by
    simp [NewLRU]
  have hinv := run_inv β B ops (NewLRU β N b) s' h0 h
  have h1 := hinv.1
  have h2 := hinv.2
  simp only [NewLRU] at h2
  omega

/-- Witness for C5: one set on a capacity-1 cache. -/
theorem lru_capacity_invariant_witness :
    1 ≤ 1 ∧ (⟨[("a", some [1])], 1, none⟩ : lru FS).l.length ≤ 1 :=
  ⟨by decide,
    lru_capacity_invariant FS dirBackend 1 none [Op.set "a" (some [1])]
      ⟨[("a", some [1])], 1, none⟩ (by decide) (by decide)⟩

/-- Claim C10: with capacity at least 1 the eviction branch always
finds a non-null tail (the insertion procedure cannot panic, in any
state whose pieces it inspects); the constructor stores the capacity
unvalidated, and with capacity 0 the first insertion of a new key —
whether through a `set` of a present item or through a backend-
fulfilled `get` — takes the eviction branch on the empty list and
dereferences the nil tail (the `none` outcome of the model). -/
theorem lru_eviction_branch_safety :
    (∀ (β : Type) (B : Backend β) (s : lru β) (k : String) (item : Option Val),
      1 ≤ s.size → (lruPut B s k item).isSome = true) ∧
    NewLRU FS 0 none = ⟨[], 0, none⟩ ∧
    lruSet dirBackend (NewLRU FS 0 none) "k" (some [1]) = none ∧
    lruGet dirBackend (NewLRU FS 0 (some [(["k"], [1])])) "k" = none := by
  refine ⟨?_, by decide, by decide, by decide⟩
  intro β B s k item hsz
  unfold lruPut
  split
  · rfl
  · next hlt =>
    have hpos : 0 < s.l.length := by omega
    have hne : s.l ≠ [] := List.ne_nil_of_length_pos hpos
    cases hl : s.l.getLast? with
    | none => exact absurd (List.getLast?_eq_none_iff.mp hl) hne
    | some p =>
      obtain ⟨vk, vv⟩ := p
      cases hb : s.backend <;> simp

/-- Witness for C10's universally quantified part: inserting into a
fresh capacity-1 cache cannot panic. -/
theorem lru_eviction_branch_safety_witness :
    1 ≤ (NewLRU FS 1 none).size ∧
    (lruPut dirBackend (NewLRU FS 1 none) "k" (some [1])).isSome = true :=
  ⟨by decide,
    lru_eviction_branch_safety.1 FS dirBackend (NewLRU FS 1 none) "k" (some [1])
      (by decide)⟩
